import Mathlib

set_option maxHeartbeats 1000000

/-!
Verification of the falsh shell core (src/main.rs) against its design
specification.  The Rust functions are shallowly embedded as executable
Lean definitions; filesystem and process effects are modelled by an
explicit oracle record (`Fs`) and an event trace (`Ev`).
-/

namespace Falsh

/-- The single-quote character (ASCII 39). -/
def squote : Char := Char.ofNat 39

/-- The double-quote character (ASCII 34). -/
def dquote : Char := Char.ofNat 34

/-- Worker loop of `split_args` (src/main.rs lines 64-84): mirrors the Rust
`while let Some(&ch) = chars.peek()` loop.  `cur` is the `current` buffer,
`acc` the `args` vector, `inS`/`inD` the `in_single`/`in_double` flags. -/
def splitArgsGo : List Char → Bool → Bool → List Char → List String → List String
  | [], _, _, cur, acc => if cur.isEmpty then acc else acc ++ [String.mk cur]
  | c :: cs, inS, inD, cur, acc =>
    if c == squote && !inD then splitArgsGo cs (!inS) inD cur acc
    else if c == dquote && !inS then splitArgsGo cs inS (!inD) cur acc
    else if c == ' ' && !inS && !inD then
      if cur.isEmpty then splitArgsGo cs inS inD cur acc
      else splitArgsGo cs inS inD [] (acc ++ [String.mk cur])
    else splitArgsGo cs inS inD (cur ++ [c]) acc

/-- Embedding of `fn split_args` (src/main.rs lines 64-84). -/
def split_args (input : String) : List String :=
  splitArgsGo input.data false false [] []

/-- Scanner state as described by the specification of the tokenizer
(spec section 4.1): the two quote flags, the token being accumulated and
the finished tokens. -/
structure TokState where
  inSingle : Bool
  inDouble : Bool
  current : List Char
  finished : List String

/-- One character step of the tokenizer, written from the words of the
specification: a single quote toggles single-quote mode unless inside
double quotes, a double quote toggles double-quote mode unless inside
single quotes (both consumed, not copied), an unquoted space closes the
current token (emitting nothing when it is empty, so runs of spaces
collapse), and every other character is copied verbatim. -/
def tokStep (st : TokState) (c : Char) : TokState :=
  if c == squote && !st.inDouble then { st with inSingle := !st.inSingle }
  else if c == dquote && !st.inSingle then { st with inDouble := !st.inDouble }
  else if c == ' ' && !st.inSingle && !st.inDouble then
    if st.current.isEmpty then st
    else { st with current := [], finished := st.finished ++ [String.mk st.current] }
  else { st with current := st.current ++ [c] }

/-- Close the final token at end of input (an unterminated token is kept). -/
def finishTok (st : TokState) : List String :=
  if st.current.isEmpty then st.finished else st.finished ++ [String.mk st.current]

/-- The tokenizer exactly as the specification words it: a left-to-right
fold of `tokStep` over the characters. -/
def tokenizeSpec (s : String) : List String :=
  finishTok (s.data.foldl tokStep { inSingle := false, inDouble := false,
                                    current := [], finished := [] })

/-- Quote state left by scanning a string (same toggling rules as
`split_args`, tracking only the two flags). -/
def quoteScan : List Char → Bool → Bool → Bool × Bool
  | [], inS, inD => (inS, inD)
  | c :: cs, inS, inD =>
    if c == squote && !inD then quoteScan cs (!inS) inD
    else if c == dquote && !inS then quoteScan cs inS (!inD)
    else quoteScan cs inS inD

/-- A line has balanced quotes when the scan ends outside both quote modes. -/
def quotesBalanced (s : String) : Prop :=
  quoteScan s.data false false = (false, false)

instance (s : String) : Decidable (quotesBalanced s) := by
  unfold quotesBalanced; infer_instance

/-- A character that is neither a space nor one of the two quote characters. -/
def cleanChar (c : Char) : Bool :=
  !(c == ' ') && !(c == squote) && !(c == dquote)

/-- A token free of spaces and quote characters. -/
def cleanTok (t : String) : Bool :=
  t.data.all cleanChar

/-- Joining a token list with a single space, as in the spec property of
section 8 (re-joined with a single space). -/
def joinSpace : List String → String
  | [] => ""
  | t :: ts =>
    match ts with
    | [] => t
    | _ :: _ => t ++ " " ++ joinSpace ts

/-! ## Pipeline executor model

The effectful parts of `execute_line` (filesystem metadata, file
create/open, glob matching, spawning, the working directory and the
process environment) are modelled by an oracle record `Fs`, an explicit
`ShellState`, and a trace of events `Ev`.  Rust `Result::Err` values map
to `Outcome.err`; a Rust panic (which aborts the whole process) maps to
the separate `Outcome.panicked`. -/

/-- Splitting a character list at every occurrence of a character,
matching the semantics of Rust str::split on a char pattern
(an empty input yields one empty segment, adjacent separators yield
empty segments). -/
def splitChar (c : Char) : List Char → List (List Char)
  | [] => [[]]
  | x :: xs =>
    if x == c then [] :: splitChar c xs
    else
      match splitChar c xs with
      | [] => [[x]]
      | seg :: rest => (x :: seg) :: rest

/-- Whitespace trimming on both ends, matching Rust str::trim. -/
def trimChars (l : List Char) : List Char :=
  ((l.dropWhile Char.isWhitespace).reverse.dropWhile Char.isWhitespace).reverse

/-- First index of a character, matching Rust str::find on a char. -/
def charIdxOf (c : Char) : List Char → Option Nat
  | [] => none
  | x :: xs => if x == c then some 0 else (charIdxOf c xs).map (fun i => i + 1)

/-- First index of a string in a list, matching Rust Iterator::position. -/
def positionOf (t : String) : List String → Option Nat
  | [] => none
  | a :: rest => if a == t then some 0 else (positionOf t rest).map (fun i => i + 1)

/-- Where a spawned process reads its input from. -/
inductive Src
  | inherit
  | pipeFrom
  | fromFile (f : String)
deriving DecidableEq

/-- Where a spawned process writes its output to. -/
inductive Tgt
  | inherit
  | piped
  | toFile (f : String)
deriving DecidableEq

/-- Observable events of one `execute_line` call. -/
inductive Ev
  | print (s : String)
  | createFile (f : String)
  | openFile (f : String)
  | spawn (prog : String) (args : List String) (stdin : Src) (stdout : Tgt)
  | pathTool
deriving DecidableEq

/-- Oracle for every effect the shell core consults: file metadata
(none = path absent, some true = file, some false = directory), parent
directories, success of file create/open, glob pattern compilation and
matching, spawn and wait success, directory changes, and the message a
failing operation reports. -/
structure Fs where
  metadata : String → Option Bool
  parent : String → Option String
  createOk : String → Bool
  openOk : String → Bool
  globCompiles : String → Bool
  globMatches : String → List String
  spawnOk : String → Bool
  waitOk : String → Bool
  chdir : String → String → Option String
  currentDirOk : Bool
  ioMsg : String → String

/-- Process-wide mutable state: working directory, environment variables,
and the persisted PATH-list file contents. -/
structure ShellState where
  cwd : String
  env : List (String × String)
  persisted : List String
deriving DecidableEq

/-- Environment variable lookup. -/
def envGet (e : List (String × String)) (k : String) : Option String :=
  (e.find? (fun p => p.1 == k)).map (fun p => p.2)

/-- Environment variable assignment (std::env::set_var for a valid key). -/
def envSet (e : List (String × String)) (k v : String) : List (String × String) :=
  if e.any (fun p => p.1 == k) then
    e.map (fun p => if p.1 == k then (k, v) else p)
  else e ++ [(k, v)]

/-- The current value of the executable-search variable PATH. -/
def pathVar (st : ShellState) : String := (envGet st.env "PATH").getD ""

/-- Rust arg.contains of a wildcard character (src/main.rs line 89). -/
def hasWildcard (s : String) : Bool :=
  s.data.contains '*' || s.data.contains '?'

/-- Embedding of `fn expand_globs` (src/main.rs lines 86-98).  A token
containing a wildcard is replaced by its glob matches; `glob(&arg)` on a
pattern that fails to compile is unwrapped in the source, which panics:
that abort is modelled as the error case. -/
def expand_globs (fs : Fs) : List String → Except String (List String)
  | [] => .ok []
  | arg :: rest =>
    if hasWildcard arg then
      if fs.globCompiles arg then
        match expand_globs fs rest with
        | .ok r => .ok (fs.globMatches arg ++ r)
        | .error m => .error m
      else .error ("glob pattern failed to compile: " ++ arg)
    else
      match expand_globs fs rest with
      | .ok r => .ok (arg :: r)
      | .error m => .error m

/-- The glob expansion step as the spec words it: a wildcard token is
replaced by all its filesystem matches (possibly none), any other token
passes through unchanged. -/
def expandSpec (fs : Fs) : List String → List String
  | [] => []
  | a :: rest =>
    (if hasWildcard a then fs.globMatches a else [a]) ++ expandSpec fs rest

/-- Path resolution of `add_to_path` (src/main.rs lines 141-152): a file
resolves to its parent directory (or itself when it has no parent), a
directory to itself, an absent path to the literal input. -/
def resolvePathAdd (fs : Fs) (u : String) : String :=
  match fs.metadata u with
  | some isFile => if isFile then (fs.parent u).getD u else u
  | none => u

/-- Embedding of `fn add_to_path` (src/main.rs lines 140-172).  The
persisted-file load/save pair is modelled by the `persisted` field of the
state; the PATH environment variable by the `env` field. -/
def add_to_path (fs : Fs) (st : ShellState) (user_input : String)
    (temporary : Bool) : ShellState × List Ev :=
  let add_str := resolvePathAdd fs user_input
  let warnEvs : List Ev :=
    match fs.metadata user_input with
    | some _ => []
    | none => [Ev.print ("Warning: path " ++ user_input ++ " does not exist.")]
  let st1 :=
    if !temporary && !(st.persisted.contains user_input) then
      { st with persisted := st.persisted ++ [user_input] }
    else st
  let path_env := pathVar st1
  let newPath :=
    if path_env.data.isEmpty then add_str else path_env ++ ":" ++ add_str
  let st2 :=
    if !(((splitChar ':' path_env.data).map String.mk).contains add_str) then
      { st1 with env := envSet st1.env "PATH" newPath }
    else st1
  (st2, warnEvs)

/-- Embedding of `fn change_dir` (src/main.rs lines 100-104). -/
def change_dir (fs : Fs) (st : ShellState) (path : String) :
    ShellState × List Ev :=
  match fs.chdir st.cwd path with
  | some newCwd => ({ st with cwd := newCwd }, [])
  | none => (st, [Ev.print ("cd failed: " ++ fs.ioMsg path)])

/-- Embedding of `fn print_working_dir` (src/main.rs lines 106-111). -/
def print_working_dir (fs : Fs) (st : ShellState) : List Ev :=
  if fs.currentDirOk then [Ev.print st.cwd]
  else [Ev.print ("pwd failed: " ++ fs.ioMsg st.cwd)]

/-- The export loop of `execute_line` (src/main.rs lines 256-266): each
token is split at its first equals sign; a token without one prints a
usage message and processing continues; std::env::set_var with an empty
key panics, aborting the process (the `some` message in the result). -/
def exportAssigns : ShellState → List String → ShellState × List Ev × Option String
  | st, [] => (st, [], none)
  | st, a :: rest =>
    match charIdxOf '=' a.data with
    | some i =>
      let key := String.mk (a.data.take i)
      let value := String.mk (a.data.drop (i + 1))
      if (a.data.take i).isEmpty then
        (st, [], some "fatal: environment variable key is empty")
      else exportAssigns { st with env := envSet st.env key value } rest
    | none =>
      let r := exportAssigns st rest
      (r.1, Ev.print ("export: invalid syntax \x27" ++ a ++ "\x27, expected VAR=VALUE")
            :: r.2.1, r.2.2)

/-- Printing every environment variable (export with no arguments,
src/main.rs lines 267-271). -/
def printEnvEvs (st : ShellState) : List Ev :=
  st.env.map (fun p => Ev.print (p.1 ++ "=" ++ p.2))

/-- The builtin names dispatched by the match in `execute_line`
(src/main.rs lines 240-275). -/
def isBuiltinName (s : String) : Bool :=
  s == "cd" || s == "pwd" || s == "addToPath" || s == "pathTool" || s == "export"

/-- Output-redirection scan of one stage (src/main.rs lines 280-285):
the first literal greater-than token, if followed by a filename, opens
that file for truncate-create-write and truncates the argument list at
the operator position; a missing filename is a syntax error. -/
def redirectOut (fs : Fs) (args : List String) :
    Except String (Tgt × List String × List Ev) :=
  match positionOf ">" args with
  | some pos =>
    if pos + 1 < args.length then
      if fs.createOk (args.getD (pos + 1) "") then
        .ok (Tgt.toFile (args.getD (pos + 1) ""), args.take pos,
             [Ev.createFile (args.getD (pos + 1) "")])
      else .error (fs.ioMsg (args.getD (pos + 1) ""))
    else .error "Syntax error: \x27>\x27 requires a filename"
  | none => .ok (Tgt.inherit, args, [])

/-- Input-redirection scan of one stage (src/main.rs lines 287-292),
applied to the argument list left by the output-redirection scan. -/
def redirectIn (fs : Fs) (stdin0 : Src) (args : List String) :
    Except String (Src × List String × List Ev) :=
  match positionOf "<" args with
  | some pos =>
    if pos + 1 < args.length then
      if fs.openOk (args.getD (pos + 1) "") then
        .ok (Src.fromFile (args.getD (pos + 1) ""), args.take pos,
             [Ev.openFile (args.getD (pos + 1) "")])
      else .error (fs.ioMsg (args.getD (pos + 1) ""))
    else .error "Syntax error: \x27<\x27 requires a filename"
  | none => .ok (stdin0, args, [])

/-- Result of processing one external (non-builtin) stage. -/
inductive StageRes
  | err (evs : List Ev) (msg : String)
  | panicked (evs : List Ev) (msg : String)
  | ok (evs : List Ev) (newPrev : Bool)
deriving DecidableEq

/-- The events a stage produced, in any outcome. -/
def stageEvents : StageRes → List Ev
  | StageRes.err e _ => e
  | StageRes.panicked e _ => e
  | StageRes.ok e _ => e

/-- Whether a process spawned with the given output target yields a
captured output pipe for the next stage (child.stdout is Some only for a
piped target). -/
def yieldsPipe : Tgt → Bool
  | Tgt.piped => true
  | _ => false

/-- External-command path of one pipeline stage (src/main.rs lines
277-304): resolve redirections, expand globs over the argument tokens
(`args[1..]`), spawn with a piped output when the stage is not the last
of the pipeline, and wait.  Indexing `args[0]`/`args[1..]` on an
argument list emptied by truncation panics in Rust, as does the glob
unwrap on an invalid pattern. -/
def runExternal (fs : Fs) (isLast prevOut : Bool) (args : List String) :
    StageRes :=
  match redirectOut fs args with
  | .error m => StageRes.err [] m
  | .ok (outTgt, args1, evs1) =>
    match redirectIn fs (if prevOut then Src.pipeFrom else Src.inherit) args1 with
    | .error m => StageRes.err evs1 m
    | .ok (stdinSrc, args2, evs2) =>
      match args2 with
      | [] => StageRes.panicked (evs1 ++ evs2) "index out of bounds"
      | prog :: rest =>
        match expand_globs fs rest with
        | .error m => StageRes.panicked (evs1 ++ evs2) m
        | .ok expanded =>
          if fs.spawnOk prog then
            if fs.waitOk prog then
              StageRes.ok
                (evs1 ++ evs2 ++ [Ev.spawn prog expanded stdinSrc
                  (if isLast then outTgt else Tgt.piped)])
                (yieldsPipe (if isLast then outTgt else Tgt.piped))
            else StageRes.err
              (evs1 ++ evs2 ++ [Ev.spawn prog expanded stdinSrc
                (if isLast then outTgt else Tgt.piped)])
              (fs.ioMsg prog)
          else StageRes.err (evs1 ++ evs2)
            ("Command failed: " ++ fs.ioMsg prog ++ " (" ++ prog ++ ")")

/-- Outcome of one `execute_line` call. -/
inductive Outcome
  | ok
  | err (msg : String)
  | panicked (msg : String)
deriving DecidableEq

/-- Final outcome, final process state and event trace of one call. -/
structure ExecResult where
  outcome : Outcome
  state : ShellState
  events : List Ev
deriving DecidableEq

/-- The stage loop of `execute_line` (src/main.rs lines 236-305): empty
token lists are skipped, builtin names dispatch in-process and leave the
captured previous output untouched, anything else runs as an external
command.  An Err return or a panic stops the loop. -/
def execStages (fs : Fs) : List String → Bool → ShellState → List Ev → ExecResult
  | [], _, st, evs => ⟨Outcome.ok, st, evs⟩
  | seg :: rest, prevOut, st, evs =>
    match split_args seg with
    | [] => execStages fs rest prevOut st evs
    | a0 :: argrest =>
      if a0 == "cd" then
        match argrest with
        | p :: _ =>
          let r := change_dir fs st p
          execStages fs rest prevOut r.1 (evs ++ r.2)
        | [] => ⟨Outcome.err "cd: missing argument", st, evs⟩
      else if a0 == "pwd" then
        execStages fs rest prevOut st (evs ++ print_working_dir fs st)
      else if a0 == "addToPath" then
        let temporary := (a0 :: argrest).any (fun a => a == "--temp")
        match argrest with
        | p :: _ =>
          let r := add_to_path fs st p temporary
          execStages fs rest prevOut r.1 (evs ++ r.2)
        | [] => ⟨Outcome.err "addToPath: missing argument", st, evs⟩
      else if a0 == "pathTool" then
        execStages fs rest prevOut st (evs ++ [Ev.pathTool])
      else if a0 == "export" then
        match argrest with
        | _ :: _ =>
          let r := exportAssigns st argrest
          match r.2.2 with
          | some m => ⟨Outcome.panicked m, r.1, evs ++ r.2.1⟩
          | none => execStages fs rest prevOut r.1 (evs ++ r.2.1)
        | [] => execStages fs rest prevOut st (evs ++ printEnvEvs st)
      else
        match runExternal fs rest.isEmpty prevOut (a0 :: argrest) with
        | StageRes.err e m => ⟨Outcome.err m, st, evs ++ e⟩
        | StageRes.panicked e m => ⟨Outcome.panicked m, st, evs ++ e⟩
        | StageRes.ok e newPrev => execStages fs rest newPrev st (evs ++ e)

/-- Embedding of `fn execute_line` (src/main.rs lines 230-308): an empty
line is a no-op, otherwise the line is split at every pipe character,
each segment trimmed, and the stages run in order. -/
def execute_line (fs : Fs) (st : ShellState) (input : String) : ExecResult :=
  if input.data.isEmpty then ⟨Outcome.ok, st, []⟩
  else execStages fs
    ((splitChar '|' input.data).map (fun l => String.mk (trimChars l)))
    false st []

/-- A permissive concrete oracle: no path exists on disk, every file
create/open succeeds, every glob pattern compiles to zero matches, every
spawn and wait succeeds, every directory change fails. -/
def fsAll : Fs :=
  { metadata := fun _ => none
    parent := fun _ => none
    createOk := fun _ => true
    openOk := fun _ => true
    globCompiles := fun _ => true
    globMatches := fun _ => []
    spawnOk := fun _ => true
    waitOk := fun _ => true
    chdir := fun _ _ => none
    currentDirOk := true
    ioMsg := fun _ => "io error" }

/-- Like `fsAll` but the pattern a[* fails to compile, as it does for the
Rust glob crate (unclosed character class). -/
def fsBadGlob : Fs :=
  { fsAll with globCompiles := fun p => !(p == "a[*") }

/-- Like `fsAll` but ./tool is a file whose parent directory is . -/
def fsTool : Fs :=
  { fsAll with
    metadata := fun p => if p == "./tool" then some true else none
    parent := fun p => if p == "./tool" then some "." else none }

/-- A small concrete starting state. -/
def st0 : ShellState := ⟨"/home/user", [("PATH", "/bin")], []⟩


theorem tokStep_sq {c : Char} {inS inD : Bool} {cur : List Char} {acc : List String}
    (h1 : (c == squote && !inD) = true) :
    tokStep ⟨inS, inD, cur, acc⟩ c = ⟨!inS, inD, cur, acc⟩ := by
  simp only [tokStep, h1]; rfl

theorem tokStep_dq {c : Char} {inS inD : Bool} {cur : List Char} {acc : List String}
    (h1 : (c == squote && !inD) = false) (h2 : (c == dquote && !inS) = true) :
    tokStep ⟨inS, inD, cur, acc⟩ c = ⟨inS, !inD, cur, acc⟩ := by
  simp only [tokStep, h1, h2]; rfl

theorem tokStep_space_nil {c : Char} {inS inD : Bool} {acc : List String}
    (h1 : (c == squote && !inD) = false) (h2 : (c == dquote && !inS) = false)
    (h3 : (c == ' ' && !inS && !inD) = true) :
    tokStep ⟨inS, inD, [], acc⟩ c = ⟨inS, inD, [], acc⟩ := by
  simp only [tokStep, h1, h2, h3]; rfl

theorem tokStep_space_push {c : Char} {inS inD : Bool} {cur : List Char} {acc : List String}
    (h1 : (c == squote && !inD) = false) (h2 : (c == dquote && !inS) = false)
    (h3 : (c == ' ' && !inS && !inD) = true) (h4 : cur.isEmpty = false) :
    tokStep ⟨inS, inD, cur, acc⟩ c = ⟨inS, inD, [], acc ++ [String.mk cur]⟩ := by
  simp only [tokStep, h1, h2, h3, h4]; rfl

theorem tokStep_copy {c : Char} {inS inD : Bool} {cur : List Char} {acc : List String}
    (h1 : (c == squote && !inD) = false) (h2 : (c == dquote && !inS) = false)
    (h3 : (c == ' ' && !inS && !inD) = false) :
    tokStep ⟨inS, inD, cur, acc⟩ c = ⟨inS, inD, cur ++ [c], acc⟩ := by
  simp only [tokStep, h1, h2, h3]; rfl

theorem splitArgsGo_eq_foldl (cs : List Char) :
    ∀ (inS inD : Bool) (cur : List Char) (acc : List String),
      splitArgsGo cs inS inD cur acc =
        finishTok (cs.foldl tokStep ⟨inS, inD, cur, acc⟩) := by
  induction cs with
  | nil => intro inS inD cur acc; rfl
  | cons c cs ih =>
    intro inS inD cur acc
    rw [List.foldl_cons]
    rcases h1 : (c == squote && !inD) with _ | _
    · rcases h2 : (c == dquote && !inS) with _ | _
      · rcases h3 : (c == ' ' && !inS && !inD) with _ | _
        · rw [tokStep_copy h1 h2 h3, ← ih]
          simp only [splitArgsGo, h1, h2, h3]
          rfl
        · rcases h4 : cur.isEmpty with _ | _
          · rw [tokStep_space_push h1 h2 h3 h4, ← ih]
            simp only [splitArgsGo, h1, h2, h3, h4]
            rfl
          · have hcur : cur = [] := by
              cases cur with
              | nil => rfl
              | cons x xs => simp [List.isEmpty] at h4
            subst hcur
            rw [tokStep_space_nil h1 h2 h3, ← ih]
            simp only [splitArgsGo, h1, h2, h3]
            rfl
      · rw [tokStep_dq h1 h2, ← ih]
        simp only [splitArgsGo, h1, h2]
        rfl
    · rw [tokStep_sq h1, ← ih]
      simp only [splitArgsGo, h1]
      rfl

theorem splitArgsGo_clean_append (l : List Char) :
    ∀ (cs cur : List Char) (acc : List String), l.all cleanChar = true →
      splitArgsGo (l ++ cs) false false cur acc
        = splitArgsGo cs false false (cur ++ l) acc := by
  induction l with
  | nil => intro cs cur acc _; simp
  | cons c l ih =>
    intro cs cur acc h
    simp only [List.all_cons, Bool.and_eq_true] at h
    obtain ⟨hc, hl⟩ := h
    simp only [cleanChar, Bool.and_eq_true, Bool.not_eq_true'] at hc
    obtain ⟨⟨hc1, hc2⟩, hc3⟩ := hc
    show splitArgsGo (c :: (l ++ cs)) false false cur acc = _
    simp only [splitArgsGo, hc1, hc2, hc3, Bool.false_and, Bool.and_false,
      Bool.and_true, Bool.not_false, Bool.and_self, Bool.false_eq_true,
      if_false]
    rw [ih cs (cur ++ [c]) acc hl]
    simp [List.append_assoc]

theorem splitArgsGo_ne_nil (cs : List Char) :
    ∀ (inS inD : Bool) (cur : List Char) (acc : List String),
      (∀ t ∈ acc, t.data ≠ []) →
      ∀ t ∈ splitArgsGo cs inS inD cur acc, t.data ≠ [] := by
  induction cs with
  | nil =>
    intro inS inD cur acc hacc t ht
    cases cur with
    | nil => exact hacc t (by simpa [splitArgsGo] using ht)
    | cons x xs =>
      simp only [splitArgsGo, List.isEmpty_cons] at ht
      rcases (by simpa using ht : t ∈ acc ∨ t = String.mk (x :: xs)) with h | h
      · exact hacc t h
      · subst h; simp
  | cons c cs ih =>
    intro inS inD cur acc hacc t ht
    simp only [splitArgsGo] at ht
    split_ifs at ht with h1 h2 h3 h4
    · exact ih _ _ _ _ hacc t ht
    · exact ih _ _ _ _ hacc t ht
    · exact ih _ _ _ _ hacc t ht
    · refine ih _ _ _ _ ?_ t ht
      intro u hu
      rcases List.mem_append.mp hu with hu | hu
      · exact hacc u hu
      · have : u = String.mk cur := by simpa using hu
        subst this
        intro hnil
        rw [show (String.mk cur).data = cur from rfl] at hnil
        rw [hnil] at h4
        exact h4 rfl
    · exact ih _ _ _ _ hacc t ht

theorem splitArgsGo_space_flush (cs cur : List Char) (acc : List String)
    (h : cur ≠ []) :
    splitArgsGo (' ' :: cs) false false cur acc
      = splitArgsGo cs false false [] (acc ++ [String.mk cur]) := by
  have c1 : ((' ' == squote) && !false) = false := by decide
  have c2 : ((' ' == dquote) && !false) = false := by decide
  have c3 : ((' ' == ' ') && !false && !false) = true := by decide
  simp only [splitArgsGo, c1, c2, c3, Bool.false_eq_true, if_false, if_true]
  cases cur with
  | nil => exact absurd rfl h
  | cons x xs => simp

theorem splitArgsGo_join (ts : List String) :
    ∀ acc : List String, (∀ t ∈ ts, t.data ≠ [] ∧ cleanTok t = true) →
      splitArgsGo (joinSpace ts).data false false [] acc = acc ++ ts := by
  induction ts with
  | nil => intro acc _; simp [joinSpace, splitArgsGo]
  | cons t ts ih =>
    intro acc h
    have ht := h t (by simp)
    cases ts with
    | nil =>
      show splitArgsGo (joinSpace [t]).data false false [] acc = acc ++ [t]
      have e1 : joinSpace [t] = t := rfl
      rw [e1]
      have e2 := splitArgsGo_clean_append t.data [] [] acc ht.2
      rw [List.append_nil] at e2
      rw [e2]
      simp only [List.nil_append, splitArgsGo]
      cases hd : t.data with
      | nil => exact absurd hd ht.1
      | cons x xs =>
        simp only [List.isEmpty_cons, Bool.false_eq_true, if_false]
        rw [← hd, show String.mk t.data = t from rfl]
    | cons u ts2 =>
      have hj : (joinSpace (t :: u :: ts2)).data
          = t.data ++ (' ' :: (joinSpace (u :: ts2)).data) := by
        show (t ++ " " ++ joinSpace (u :: ts2)).data = _
        simp [String.data_append, List.append_assoc]
      rw [hj, splitArgsGo_clean_append t.data _ [] acc ht.2]
      simp only [List.nil_append]
      rw [splitArgsGo_space_flush _ _ _ ht.1,
        show String.mk t.data = t from rfl,
        ih (acc ++ [t]) (fun v hv => h v (List.mem_cons_of_mem t hv))]
      simp

/-- C1: split_args scans characters left to right with the stated quote
toggling, space delimiting and verbatim copying rules: it coincides with
`tokenizeSpec`, the direct transcription of the spec wording, on every
input; and on the concrete example line from the spec (token a, a
single-quoted token b c, token d) it returns the three tokens a, b c, d. -/
theorem c1_split_args_tokenizes :
    (∀ s : String, split_args s = tokenizeSpec s) ∧
      split_args "a \x27b c\x27 d" = ["a", "b c", "d"] :=
  ⟨fun s => splitArgsGo_eq_foldl s.data false false [] [], by decide⟩

/-- C5 corrected: the roundtrip property holds once no produced token
contains a space or a quote character (the counterexample shows it fails
otherwise).  For every input with balanced quotes all of whose tokens are
clean, re-joining with single spaces and re-tokenizing is the identity. -/
theorem c5_roundtrip_clean (s : String)
    (hbal : quotesBalanced s)
    (hclean : ∀ t ∈ split_args s, cleanTok t = true) :
    split_args (joinSpace (split_args s)) = split_args s := by
  have hne : ∀ t ∈ split_args s, t.data ≠ [] :=
    splitArgsGo_ne_nil s.data false false [] [] (by simp)
  have hj := splitArgsGo_join (split_args s) []
    (fun t ht => ⟨hne t ht, hclean t ht⟩)
  simpa [split_args] using hj

/-- C5 witness: a concrete balanced, clean-token line on which the
roundtrip theorem applies. -/
theorem c5_roundtrip_clean_witness :
    quotesBalanced "a \x27b\x27 c" ∧
      (∀ t ∈ split_args "a \x27b\x27 c", cleanTok t = true) ∧
      split_args (joinSpace (split_args "a \x27b\x27 c"))
        = split_args "a \x27b\x27 c" :=
  ⟨by decide, by decide, c5_roundtrip_clean "a \x27b\x27 c" (by decide) (by decide)⟩

/-- C5 counterexample: the line consisting of a single-quoted a b has
balanced quotes, tokenizes to the single token a b, but re-joining and
re-tokenizing splits that token at its inner space, so the claimed
roundtrip identity fails. -/
theorem c5_counterexample :
    quotesBalanced "\x27a b\x27" ∧
      split_args (joinSpace (split_args "\x27a b\x27"))
        ≠ split_args "\x27a b\x27" :=
  ⟨by decide, by decide⟩

theorem positionOf_take_none (t : String) (l : List String) :
    ∀ (p q : Nat), positionOf t l = some q → p ≤ q →
      positionOf t (l.take p) = none := by
  induction l with
  | nil => intro p q h _; simp [positionOf] at h
  | cons a xs ih =>
    intro p q h hpq
    by_cases ha : (a == t) = true
    · simp only [positionOf, ha, if_true, Option.some.injEq] at h
      have hp : p = 0 := by omega
      subst hp
      simp [positionOf]
    · simp only [positionOf, ha, Bool.false_eq_true, if_false] at h
      rcases Option.map_eq_some'.mp h with ⟨q2, hq2, hq⟩
      cases p with
      | zero => simp [positionOf]
      | succ p2 =>
        simp only [List.take_succ_cons, positionOf, ha, Bool.false_eq_true,
          if_false]
        rw [ih p2 q2 hq2 (by omega)]
        rfl

theorem redirectOut_none (fs : Fs) (args : List String)
    (h : positionOf ">" args = none) :
    redirectOut fs args = .ok (Tgt.inherit, args, []) := by
  simp [redirectOut, h]

theorem redirectOut_trailing (fs : Fs) (args : List String) (p : Nat)
    (h : positionOf ">" args = some p) (hp : p + 1 = args.length) :
    redirectOut fs args
      = .error "Syntax error: \x27>\x27 requires a filename" := by
  simp [redirectOut, h, ← hp]

theorem redirectOut_mid (fs : Fs) (args : List String) (p : Nat)
    (h : positionOf ">" args = some p) (hp : p + 1 < args.length)
    (hc : fs.createOk (args.getD (p + 1) "") = true) :
    redirectOut fs args
      = .ok (Tgt.toFile (args.getD (p + 1) ""), args.take p,
             [Ev.createFile (args.getD (p + 1) "")]) := by
  simp only [redirectOut, h]
  rw [if_pos hp, if_pos hc]

theorem redirectOut_mid_fail (fs : Fs) (args : List String) (p : Nat)
    (h : positionOf ">" args = some p) (hp : p + 1 < args.length)
    (hc : fs.createOk (args.getD (p + 1) "") = false) :
    redirectOut fs args = .error (fs.ioMsg (args.getD (p + 1) "")) := by
  simp only [redirectOut, h]
  rw [if_pos hp, if_neg (by rw [hc]; simp)]

theorem redirectIn_none (fs : Fs) (stdin0 : Src) (args : List String)
    (h : positionOf "<" args = none) :
    redirectIn fs stdin0 args = .ok (stdin0, args, []) := by
  simp [redirectIn, h]

theorem redirectIn_trailing (fs : Fs) (stdin0 : Src) (args : List String)
    (q : Nat) (h : positionOf "<" args = some q) (hq : q + 1 = args.length) :
    redirectIn fs stdin0 args
      = .error "Syntax error: \x27<\x27 requires a filename" := by
  simp [redirectIn, h, ← hq]

theorem redirectOut_ok_cases (fs : Fs) (args : List String) (outTgt : Tgt)
    (args1 : List String) (evs1 : List Ev)
    (h : redirectOut fs args = .ok (outTgt, args1, evs1)) :
    (outTgt = Tgt.inherit ∧ args1 = args ∧ evs1 = []) ∨
    (∃ f pos, outTgt = Tgt.toFile f ∧ args1 = args.take pos ∧
      evs1 = [Ev.createFile f]) := by
  unfold redirectOut at h
  split at h
  · split at h
    · split at h
      · right
        injection h with h
        injection h with h1 h2
        injection h2 with h2 h3
        exact ⟨_, _, h1.symm, h2.symm, h3.symm⟩
      · cases h
    · cases h
  · left
    injection h with h
    injection h with h1 h2
    injection h2 with h2 h3
    exact ⟨h1.symm, h2.symm, h3.symm⟩

theorem redirectIn_ok_cases (fs : Fs) (stdin0 : Src) (args : List String)
    (stdinSrc : Src) (args2 : List String) (evs2 : List Ev)
    (h : redirectIn fs stdin0 args = .ok (stdinSrc, args2, evs2)) :
    (stdinSrc = stdin0 ∧ args2 = args ∧ evs2 = []) ∨
    (∃ f pos, stdinSrc = Src.fromFile f ∧ args2 = args.take pos ∧
      evs2 = [Ev.openFile f]) := by
  unfold redirectIn at h
  split at h
  · split at h
    · split at h
      · right
        injection h with h
        injection h with h1 h2
        injection h2 with h2 h3
        exact ⟨_, _, h1.symm, h2.symm, h3.symm⟩
      · cases h
    · cases h
  · left
    injection h with h
    injection h with h1 h2
    injection h2 with h2 h3
    exact ⟨h1.symm, h2.symm, h3.symm⟩

theorem runExternal_ok_shape (fs : Fs) (isLast prevOut : Bool)
    (args : List String) (evs : List Ev) (newPrev : Bool)
    (h : runExternal fs isLast prevOut args = StageRes.ok evs newPrev) :
    ∃ (outTgt : Tgt) (args1 : List String) (evs1 : List Ev)
      (stdinSrc : Src) (args2 : List String) (evs2 : List Ev)
      (prog : String) (rest2 : List String) (expanded : List String),
      redirectOut fs args = .ok (outTgt, args1, evs1) ∧
      redirectIn fs (if prevOut then Src.pipeFrom else Src.inherit) args1
        = .ok (stdinSrc, args2, evs2) ∧
      args2 = prog :: rest2 ∧
      expand_globs fs rest2 = .ok expanded ∧
      fs.spawnOk prog = true ∧ fs.waitOk prog = true ∧
      evs = evs1 ++ evs2 ++ [Ev.spawn prog expanded stdinSrc
        (if isLast then outTgt else Tgt.piped)] := by
  unfold runExternal at h
  split at h
  · cases h
  · rename_i outTgt args1 evs1 heqOut
    split at h
    · cases h
    · rename_i stdinSrc args2 evs2 heqIn
      split at h
      · cases h
      · rename_i prog rest2
        split at h
        · cases h
        · rename_i expanded heqExp
          split at h
          · split at h
            · rename_i hspawn hwait
              injection h with h1 h2
              exact ⟨outTgt, args1, evs1, stdinSrc, prog :: rest2, evs2, prog,
                rest2, expanded, heqOut, heqIn, rfl, heqExp, hspawn, hwait,
                h1.symm⟩
            · cases h
          · cases h

/-- C2 counterexample: in the two-stage pipeline a > f | b the first
stage has an output redirection applied (the file f is created), yet the
spawned process for that stage gets a pipe as its output stream, not the
redirected target, because the source always pipes a non-last stage.
The claim, which requires the redirected target whenever a redirection
applies, is therefore false at this input. -/
theorem c2_counterexample :
    execute_line fsAll st0 "a > f | b" =
      ⟨Outcome.ok, st0,
        [Ev.createFile "f",
         Ev.spawn "a" [] Src.inherit Tgt.piped,
         Ev.spawn "b" [] Src.pipeFrom Tgt.inherit]⟩ ∧
      Tgt.piped ≠ Tgt.toFile "f" :=
  ⟨by decide, by decide⟩

/-- C2 corrected: for every successfully spawned stage, the output
stream is a pipe exactly when the stage is not the last of the pipeline
(even when an output redirection was applied, as the counterexample
shows); only when the stage is the last one is the output the redirected
file target (when a redirection applied) or the inherited stream (when
none did). -/
theorem c2_amended_output_wiring (fs : Fs) (isLast prevOut : Bool)
    (args : List String) (evs : List Ev) (newPrev : Bool)
    (h : runExternal fs isLast prevOut args = StageRes.ok evs newPrev) :
    ∀ pr a sIn sOut, Ev.spawn pr a sIn sOut ∈ evs →
      (isLast = false → sOut = Tgt.piped) ∧
      (isLast = true →
        (∃ f, sOut = Tgt.toFile f ∧ Ev.createFile f ∈ evs) ∨
        (sOut = Tgt.inherit ∧ ∀ f, Ev.createFile f ∉ evs)) := by
  obtain ⟨outTgt, args1, evs1, stdinSrc, args2, evs2, prog, rest2, expanded,
    hOut, hIn, hcons, hExp, hsp, hw, hevs⟩ :=
    runExternal_ok_shape fs isLast prevOut args evs newPrev h
  intro pr a sIn sOut hmem
  have hspawn_eq : Ev.spawn pr a sIn sOut
      = Ev.spawn prog expanded stdinSrc (if isLast then outTgt else Tgt.piped) := by
    subst hevs
    rcases redirectOut_ok_cases fs args outTgt args1 evs1 hOut with
      ⟨ht1, ha1, he1⟩ | ⟨f, pos, ht1, ha1, he1⟩ <;>
    rcases redirectIn_ok_cases fs _ args1 stdinSrc args2 evs2 hIn with
      ⟨ht2, ha2, he2⟩ | ⟨g, pos2, ht2, ha2, he2⟩ <;>
    subst he1 <;> subst he2 <;> simp_all
  have hkey : sOut = (if isLast then outTgt else Tgt.piped) := by
    injection hspawn_eq
  constructor
  · intro hLast
    subst hLast
    simpa using hkey
  · intro hLast
    subst hLast
    simp only [if_true] at hkey
    rcases redirectOut_ok_cases fs args outTgt args1 evs1 hOut with
      ⟨ht1, ha1, he1⟩ | ⟨f, pos, ht1, ha1, he1⟩
    · right
      refine ⟨by rw [hkey, ht1], ?_⟩
      intro g hg
      subst hevs
      subst he1
      rcases redirectIn_ok_cases fs _ args1 stdinSrc args2 evs2 hIn with
        ⟨_, _, he2⟩ | ⟨g2, pos2, _, _, he2⟩ <;> subst he2 <;> simp at hg
    · left
      refine ⟨f, by rw [hkey, ht1], ?_⟩
      subst hevs
      subst he1
      simp

/-- C2 witness: a last stage with an output redirection: the spawned
process writes to the redirected file target. -/
theorem c2_amended_output_wiring_witness :
    runExternal fsAll true false ["a", ">", "f"]
      = StageRes.ok [Ev.createFile "f",
          Ev.spawn "a" [] Src.inherit (Tgt.toFile "f")] false ∧
      ((true = false → Tgt.toFile "f" = Tgt.piped) ∧
       (true = true →
         (∃ g, Tgt.toFile "f" = Tgt.toFile g ∧
           Ev.createFile g ∈ [Ev.createFile "f",
             Ev.spawn "a" [] Src.inherit (Tgt.toFile "f")]) ∨
         (Tgt.toFile "f" = Tgt.inherit ∧ ∀ g, Ev.createFile g ∉
           [Ev.createFile "f",
            Ev.spawn "a" [] Src.inherit (Tgt.toFile "f")]))) :=
  ⟨by decide,
   c2_amended_output_wiring fsAll true false ["a", ">", "f"] _ false (by decide)
     "a" [] Src.inherit (Tgt.toFile "f") (by decide)⟩

/-- C3 counterexample: the line cmd > f < ends a stage with the operator
token <, yet execute succeeds and spawns a process: processing the
earlier > with its filename truncates the argument list, silently
removing the trailing <, so no ParseError is returned, contradicting the
claim that every stage-final redirection operator aborts the pipeline. -/
theorem c3_counterexample :
    execute_line fsAll st0 "cmd > f <" =
      ⟨Outcome.ok, st0,
        [Ev.createFile "f", Ev.spawn "cmd" [] Src.inherit (Tgt.toFile "f")]⟩ :=
  by decide

/-- C3 corrected: a trailing redirection operator aborts the pipeline
with a syntax error when it survives redirection processing: if the
first > of a stage is its last token, or no > occurs and the first < is
the last token, the stage yields the corresponding ParseError with no
events (no file opened, no process spawned); and an erring stage makes
execStages return that error immediately, leaving the remaining stages
unprocessed.  (The counterexample shows the original claim fails when an
earlier > with a filename truncates the trailing operator away.) -/
theorem c3_amended_trailing_operator :
    (∀ (fs : Fs) (isLast prevOut : Bool) (args : List String) (p : Nat),
      positionOf ">" args = some p → p + 1 = args.length →
      runExternal fs isLast prevOut args
        = StageRes.err [] "Syntax error: \x27>\x27 requires a filename") ∧
    (∀ (fs : Fs) (isLast prevOut : Bool) (args : List String) (q : Nat),
      positionOf ">" args = none →
      positionOf "<" args = some q → q + 1 = args.length →
      runExternal fs isLast prevOut args
        = StageRes.err [] "Syntax error: \x27<\x27 requires a filename") ∧
    (∀ (fs : Fs) (seg : String) (rest : List String) (prevOut : Bool)
       (st : ShellState) (evs : List Ev) (m : String) (a0 : String)
       (argrest : List String),
      split_args seg = a0 :: argrest → isBuiltinName a0 = false →
      runExternal fs rest.isEmpty prevOut (a0 :: argrest) = StageRes.err [] m →
      execStages fs (seg :: rest) prevOut st evs = ⟨Outcome.err m, st, evs⟩) := by
  refine ⟨?_, ?_, ?_⟩
  · intro fs isLast prevOut args p h hp
    unfold runExternal
    simp only [redirectOut_trailing fs args p h hp]
  · intro fs isLast prevOut args q hgt hlt hq
    unfold runExternal
    simp only [redirectOut_none fs args hgt,
      redirectIn_trailing fs _ args q hlt hq]
  · intro fs seg rest prevOut st evs m a0 argrest hsplit hb hrun
    simp only [isBuiltinName] at hb
    simp only [Bool.or_eq_false_iff] at hb
    obtain ⟨⟨⟨⟨h1, h2⟩, h3⟩, h4⟩, h5⟩ := hb
    simp only [execStages, hsplit, h1, h2, h3, h4, h5, Bool.false_eq_true,
      if_false, hrun, List.append_nil]

/-- C3 witness: the single stage echo hi > has its first > as the final
token and errs with the ParseError message. -/
theorem c3_amended_trailing_operator_witness :
    positionOf ">" ["echo", "hi", ">"] = some 2 ∧
      runExternal fsAll true false ["echo", "hi", ">"]
        = StageRes.err [] "Syntax error: \x27>\x27 requires a filename" :=
  ⟨by decide,
   c3_amended_trailing_operator.1 fsAll true false ["echo", "hi", ">"] 2
     (by decide) (by decide)⟩

/-- C9: in a stage whose first > operator (with a filename whose
creation succeeds or fails) precedes every < operator, the truncation at
the > position discards the < operator and its filename: no input file
is ever opened, and any process spawned for the stage keeps the
previous-stage pipe (or the inherited stream) as its input. -/
theorem c9_output_redir_discards_input_redir (fs : Fs) (isLast prevOut : Bool)
    (args : List String) (p q : Nat)
    (hgt : positionOf ">" args = some p)
    (hlen : p + 1 < args.length)
    (hlt : positionOf "<" args = some q)
    (hpq : p < q) :
    (∀ f, Ev.openFile f ∉ stageEvents (runExternal fs isLast prevOut args)) ∧
    (∀ pr a sIn sOut,
      Ev.spawn pr a sIn sOut ∈ stageEvents (runExternal fs isLast prevOut args) →
      sIn = (if prevOut then Src.pipeFrom else Src.inherit)) := by
  by_cases hc : fs.createOk (args.getD (p + 1) "") = true
  · have hOut := redirectOut_mid fs args p hgt hlen hc
    have hInNone : positionOf "<" (args.take p) = none :=
      positionOf_take_none "<" args p q hlt (Nat.le_of_lt hpq)
    have hIn := redirectIn_none fs
      (if prevOut then Src.pipeFrom else Src.inherit) (args.take p) hInNone
    unfold runExternal
    simp only [hOut, hIn]
    cases htake : args.take p with
    | nil =>
      exact ⟨fun f => by simp [stageEvents],
        fun pr a sIn sOut hmem => by simp [stageEvents] at hmem⟩
    | cons prog rest2 =>
      cases hexp : expand_globs fs rest2 with
      | error m =>
        exact ⟨fun f => by simp [stageEvents, hexp],
          fun pr a sIn sOut hmem => by simp [stageEvents, hexp] at hmem⟩
      | ok expanded =>
        by_cases hsp : fs.spawnOk prog = true <;>
          by_cases hw : fs.waitOk prog = true
        · refine ⟨fun f => by simp [stageEvents, hexp, hsp, hw],
            fun pr a sIn sOut hmem => ?_⟩
          simp [stageEvents, hexp, hsp, hw] at hmem
          try exact hmem.2.2.1
        · refine ⟨fun f => by simp [stageEvents, hexp, hsp, hw],
            fun pr a sIn sOut hmem => ?_⟩
          simp [stageEvents, hexp, hsp, hw] at hmem
          try exact hmem.2.2.1
        · refine ⟨fun f => by simp [stageEvents, hexp, hsp, hw],
            fun pr a sIn sOut hmem => ?_⟩
          simp [stageEvents, hexp, hsp, hw] at hmem
          try exact hmem.2.2.1
        · refine ⟨fun f => by simp [stageEvents, hexp, hsp, hw],
            fun pr a sIn sOut hmem => ?_⟩
          simp [stageEvents, hexp, hsp, hw] at hmem
          try exact hmem.2.2.1
  · have hOut := redirectOut_mid_fail fs args p hgt hlen (by
      cases hcb : fs.createOk (args.getD (p + 1) "") with
      | true => exact absurd hcb hc
      | false => rfl)
    unfold runExternal
    simp only [hOut]
    exact ⟨fun f => by simp [stageEvents],
      fun pr a sIn sOut hmem => by simp [stageEvents] at hmem⟩

/-- C9 witness: the stage cmd > out < in never opens the file in, and
the spawned process inherits its input. -/
theorem c9_witness :
    (positionOf ">" ["cmd", ">", "out", "<", "in"] = some 1 ∧
     positionOf "<" ["cmd", ">", "out", "<", "in"] = some 3) ∧
      Ev.openFile "in" ∉ stageEvents
        (runExternal fsAll true false ["cmd", ">", "out", "<", "in"]) :=
  ⟨⟨by decide, by decide⟩,
   (c9_output_redir_discards_input_redir fsAll true false
      ["cmd", ">", "out", "<", "in"] 1 3 (by decide) (by decide) (by decide)
      (by decide)).1 "in"⟩

theorem expand_globs_error (fs : Fs) (args : List String)
    (h : ∃ a ∈ args, hasWildcard a = true ∧ fs.globCompiles a = false) :
    ∃ m, expand_globs fs args = Except.error m := by
  induction args with
  | nil => simp at h
  | cons x rest ih =>
    rcases h with ⟨a, ha, hw, hc⟩
    rcases List.mem_cons.mp ha with rfl | hmem
    · exact ⟨"glob pattern failed to compile: " ++ a,
        by simp [expand_globs, hw, hc]⟩
    · by_cases hwx : hasWildcard x = true
      · by_cases hcx : fs.globCompiles x = true
        · obtain ⟨m, hm⟩ := ih ⟨a, hmem, hw, hc⟩
          exact ⟨m, by simp [expand_globs, hwx, hcx, hm]⟩
        · have hcf : fs.globCompiles x = false := by
            cases hcg : fs.globCompiles x with
            | true => exact absurd hcg hcx
            | false => rfl
          exact ⟨"glob pattern failed to compile: " ++ x,
            by simp [expand_globs, hwx, hcf]⟩
      · have hwf : hasWildcard x = false := by
          cases hq : hasWildcard x with
          | true => exact absurd hq hwx
          | false => rfl
        obtain ⟨m, hm⟩ := ih ⟨a, hmem, hw, hc⟩
        exact ⟨m, by simp [expand_globs, hwf, hm]⟩

theorem take_head {α : Type} (a0 : α) (l : List α) (n : Nat)
    (h : l = [] ∨ ∃ w, l = a0 :: w) :
    l.take n = [] ∨ ∃ w, l.take n = a0 :: w := by
  rcases h with rfl | ⟨w, rfl⟩
  · simp
  · cases n with
    | zero => simp
    | succ n2 => right; exact ⟨w.take n2, by simp⟩

/-- C7 corrected: a wildcard token whose pattern fails to compile is
fatal, but not as a reported pipeline-construction error: the source
unwraps the failed glob compilation, so the invocation panics and the
whole process aborts.  The expansion fails, the stage result is a panic
with no spawn, and a panicking stage makes execStages stop immediately
with the panic outcome (distinct from every err outcome), leaving the
remaining stages unprocessed. -/
theorem c7_amended_bad_pattern_panics :
    (∀ (fs : Fs) (args : List String),
      (∃ a ∈ args, hasWildcard a = true ∧ fs.globCompiles a = false) →
      ∃ m, expand_globs fs args = Except.error m) ∧
    (∀ (fs : Fs) (isLast prevOut : Bool) (prog : String) (rest : List String),
      positionOf ">" (prog :: rest) = none →
      positionOf "<" (prog :: rest) = none →
      (∃ a ∈ rest, hasWildcard a = true ∧ fs.globCompiles a = false) →
      ∃ m, runExternal fs isLast prevOut (prog :: rest)
        = StageRes.panicked [] m) ∧
    (∀ (fs : Fs) (seg : String) (rest : List String) (prevOut : Bool)
       (st : ShellState) (evs e : List Ev) (m : String) (a0 : String)
       (argrest : List String),
      split_args seg = a0 :: argrest → isBuiltinName a0 = false →
      runExternal fs rest.isEmpty prevOut (a0 :: argrest)
        = StageRes.panicked e m →
      execStages fs (seg :: rest) prevOut st evs
        = ⟨Outcome.panicked m, st, evs ++ e⟩) := by
  refine ⟨expand_globs_error, ?_, ?_⟩
  · intro fs isLast prevOut prog rest hgt hlt hbad
    obtain ⟨m, hm⟩ := expand_globs_error fs rest hbad
    refine ⟨m, ?_⟩
    unfold runExternal
    simp only [redirectOut_none fs _ hgt, redirectIn_none fs _ _ hlt, hm]
    rfl
  · intro fs seg rest prevOut st evs e m a0 argrest hsplit hb hrun
    simp only [isBuiltinName] at hb
    simp only [Bool.or_eq_false_iff] at hb
    obtain ⟨⟨⟨⟨h1, h2⟩, h3⟩, h4⟩, h5⟩ := hb
    simp only [execStages, hsplit, h1, h2, h3, h4, h5, Bool.false_eq_true,
      if_false, hrun]

/-- C7 witness: the stage echo a[* with the non-compiling pattern a[*
panics. -/
theorem c7_amended_witness :
    (∃ a ∈ ["a[*"], hasWildcard a = true ∧ fsBadGlob.globCompiles a = false) ∧
      ∃ m, runExternal fsBadGlob true false ["echo", "a[*"]
        = StageRes.panicked [] m :=
  ⟨⟨"a[*", by decide, by decide, by decide⟩,
   c7_amended_bad_pattern_panics.2.1 fsBadGlob true false "echo" ["a[*"]
     (by decide) (by decide) ⟨"a[*", by decide, by decide, by decide⟩⟩

/-- C6: glob expansion maps every wildcard token to exactly its
filesystem matches (zero matches contribute zero tokens, dropping the
literal pattern) and passes wildcard-free tokens through unchanged
(`expandSpec` is the spec wording); and expansion applies only to the
argument tokens: whatever is spawned, the program name is the first
stage token verbatim, never a glob expansion. -/
theorem c6_glob_expansion (fs : Fs) :
    (∀ args : List String,
      (∀ a ∈ args, hasWildcard a = true → fs.globCompiles a = true) →
      expand_globs fs args = Except.ok (expandSpec fs args)) ∧
    (∀ (isLast prevOut : Bool) (a0 : String) (argrest : List String)
       (evs : List Ev) (newPrev : Bool),
      runExternal fs isLast prevOut (a0 :: argrest) = StageRes.ok evs newPrev →
      ∀ pr a sIn sOut, Ev.spawn pr a sIn sOut ∈ evs → pr = a0) := by
  constructor
  · intro args h
    induction args with
    | nil => rfl
    | cons x rest ih =>
      have hrest : ∀ a ∈ rest, hasWildcard a = true → fs.globCompiles a = true :=
        fun a ha => h a (List.mem_cons_of_mem x ha)
      by_cases hw : hasWildcard x = true
      · simp [expand_globs, expandSpec, hw, h x (by simp) hw, ih hrest]
      · have hwf : hasWildcard x = false := by
          cases hq : hasWildcard x with
          | true => exact absurd hq hw
          | false => rfl
        simp [expand_globs, expandSpec, hwf, ih hrest]
  · intro isLast prevOut a0 argrest evs newPrev h pr a sIn sOut hmem
    obtain ⟨outTgt, args1, evs1, stdinSrc, args2, evs2, prog, rest2, expanded,
      hOut, hIn, hcons, hExp, hsp, hw2, hevs⟩ :=
      runExternal_ok_shape fs isLast prevOut (a0 :: argrest) evs newPrev h
    have hbase : (a0 :: argrest) = ([] : List String) ∨
        ∃ w, (a0 :: argrest) = a0 :: w := Or.inr ⟨argrest, rfl⟩
    have h1 : args1 = [] ∨ ∃ w, args1 = a0 :: w := by
      rcases redirectOut_ok_cases fs _ outTgt args1 evs1 hOut with
        ⟨_, ha1, _⟩ | ⟨f, pos, _, ha1, _⟩
      · rw [ha1]; exact hbase
      · rw [ha1]; exact take_head a0 _ pos hbase
    have h2 : args2 = [] ∨ ∃ w, args2 = a0 :: w := by
      rcases redirectIn_ok_cases fs _ args1 stdinSrc args2 evs2 hIn with
        ⟨_, ha2, _⟩ | ⟨g, pos2, _, ha2, _⟩
      · rw [ha2]; exact h1
      · rw [ha2]; exact take_head a0 _ pos2 h1
    have hprog : prog = a0 := by
      rcases h2 with h2 | ⟨w, h2⟩
      · rw [h2] at hcons; cases hcons
      · rw [h2] at hcons; injection hcons with hh _; exact hh.symm
    subst hevs
    rcases redirectOut_ok_cases fs _ outTgt args1 evs1 hOut with
      ⟨_, _, he1⟩ | ⟨f, pos, _, _, he1⟩ <;>
    rcases redirectIn_ok_cases fs _ args1 stdinSrc args2 evs2 hIn with
      ⟨_, _, he2⟩ | ⟨g, pos2, _, _, he2⟩ <;>
    subst he1 <;> subst he2 <;> rw [hprog] at hmem <;> simp at hmem <;>
      exact hmem.1

/-- C6 witness: a wildcard-free token and a matching-nothing pattern
expand to just the wildcard-free token. -/
theorem c6_glob_expansion_witness :
    (∀ a ∈ ["a", "*"], hasWildcard a = true → fsAll.globCompiles a = true) ∧
      expand_globs fsAll ["a", "*"] = Except.ok (expandSpec fsAll ["a", "*"]) :=
  ⟨by decide, (c6_glob_expansion fsAll).1 ["a", "*"] (by decide)⟩

/-- C7 counterexample: on the stage echo a[* whose wildcard token fails
to compile, the execute call does not report an error result: the source
unwraps the failed glob and panics, aborting the whole process, modelled
by the distinct `Outcome.panicked` constructor. -/
theorem c7_counterexample :
    execute_line fsBadGlob st0 "echo a[*" =
      ⟨Outcome.panicked "glob pattern failed to compile: a[*", st0, []⟩ ∧
      Outcome.panicked "glob pattern failed to compile: a[*"
        ≠ Outcome.err "glob pattern failed to compile: a[*" :=
  ⟨by decide, by decide⟩

theorem stringMk_data (s : String) : String.mk s.data = s := rfl

theorem contains_append_self (l : List String) (u : String) :
    (l ++ [u]).contains u = true := by
  simp [List.contains]

theorem envGet_map_set (k v : String) (e : List (String × String))
    (h : e.any (fun p => p.1 == k) = true) :
    envGet (e.map (fun p => if p.1 == k then (k, v) else p)) k = some v := by
  induction e with
  | nil => simp at h
  | cons x xs ih =>
    by_cases hx : (x.1 == k) = true
    · simp [envGet, hx, List.find?]
    · have hxs : xs.any (fun p => p.1 == k) = true := by
        simp only [List.any_cons] at h
        rcases Bool.or_eq_true_iff.mp h with hh | hh
        · exact absurd hh hx
        · exact hh
      have := ih hxs
      simp only [List.map_cons, if_neg (by simp [hx] : ¬((x.1 == k) = true))]
      simpa [envGet, List.find?, hx] using this

theorem envGet_append_set (k v : String) (e : List (String × String))
    (h : e.any (fun p => p.1 == k) = false) :
    envGet (e ++ [(k, v)]) k = some v := by
  induction e with
  | nil => simp [envGet, List.find?]
  | cons x xs ih =>
    simp only [List.any_cons, Bool.or_eq_false_iff] at h
    obtain ⟨hx, hxs⟩ := h
    have := ih hxs
    simpa [envGet, List.find?, hx] using this

theorem envGet_envSet_self (e : List (String × String)) (k v : String) :
    envGet (envSet e k v) k = some v := by
  unfold envSet
  by_cases h : e.any (fun p => p.1 == k) = true
  · rw [if_pos h]; exact envGet_map_set k v e h
  · rw [if_neg h]
    have hf : e.any (fun p => p.1 == k) = false := by
      cases hq : e.any (fun p => p.1 == k) with
      | true => exact absurd hq h
      | false => rfl
    exact envGet_append_set k v e hf

theorem add_to_path_persisted (fs : Fs) (st : ShellState) (u : String)
    (temp : Bool) :
    (add_to_path fs st u temp).1.persisted
      = (if !temp && !(st.persisted.contains u)
         then st.persisted ++ [u] else st.persisted) := by
  unfold add_to_path
  cases hq : (!temp && !(st.persisted.contains u)) with
  | false =>
    simp only [hq, Bool.false_eq_true, if_false]
    split <;> rfl
  | true =>
    simp only [hq, if_true]
    split <;> rfl

theorem add_to_path_pathVar (fs : Fs) (st : ShellState) (u : String)
    (temp : Bool) :
    pathVar (add_to_path fs st u temp).1
      = (if ((splitChar ':' (pathVar st).data).map String.mk).contains
            (resolvePathAdd fs u)
         then pathVar st
         else (if (pathVar st).data.isEmpty then resolvePathAdd fs u
               else pathVar st ++ ":" ++ resolvePathAdd fs u)) := by
  unfold add_to_path
  cases hq : (!temp && !(st.persisted.contains u)) with
  | false =>
    simp only [hq, Bool.false_eq_true, if_false]
    cases hseg : ((splitChar ':' (pathVar st).data).map String.mk).contains
        (resolvePathAdd fs u) with
    | true => simp [hseg]
    | false => simp [hseg, pathVar, envGet_envSet_self]
  | true =>
    simp only [hq, if_true]
    have hpv : pathVar { st with persisted := st.persisted ++ [u] }
        = pathVar st := rfl
    simp only [hpv]
    cases hseg : ((splitChar ':' (pathVar st).data).map String.mk).contains
        (resolvePathAdd fs u) with
    | true => simp [hseg, hpv]
    | false => simp [hseg, pathVar, envGet_envSet_self]

theorem add_to_path_warnEvs (fs : Fs) (st : ShellState) (u : String)
    (temp : Bool) :
    (add_to_path fs st u temp).2
      = (match fs.metadata u with
         | some _ => []
         | none => [Ev.print ("Warning: path " ++ u ++ " does not exist.")]) :=
  rfl

/-- C4: add resolves its input (a file to its parent directory, a
directory to itself, an absent path to the literal input with a printed
warning); when not temporary the literal input is appended to the
persisted list exactly when it is not already present by exact string
match, so adding the same literal twice persists it once; and the
resolved path is appended to the PATH search variable exactly when no
colon-delimited segment of it already equals the resolved string. -/
theorem c4_add_to_path_contract (fs : Fs) (st : ShellState) (u : String)
    (temp : Bool) :
    (fs.metadata u = some true → resolvePathAdd fs u = (fs.parent u).getD u) ∧
    (fs.metadata u = some false → resolvePathAdd fs u = u) ∧
    (fs.metadata u = none → resolvePathAdd fs u = u ∧
        (add_to_path fs st u temp).2
          = [Ev.print ("Warning: path " ++ u ++ " does not exist.")]) ∧
    (temp = false → st.persisted.contains u = true →
        (add_to_path fs st u temp).1.persisted = st.persisted) ∧
    (temp = false → st.persisted.contains u = false →
        (add_to_path fs st u temp).1.persisted = st.persisted ++ [u]) ∧
    ((add_to_path fs (add_to_path fs st u false).1 u false).1.persisted
        = (add_to_path fs st u false).1.persisted) ∧
    (((splitChar ':' (pathVar st).data).map String.mk).contains
        (resolvePathAdd fs u) = true →
      pathVar (add_to_path fs st u temp).1 = pathVar st) ∧
    (((splitChar ':' (pathVar st).data).map String.mk).contains
        (resolvePathAdd fs u) = false →
      pathVar (add_to_path fs st u temp).1
        = (if (pathVar st).data.isEmpty then resolvePathAdd fs u
           else pathVar st ++ ":" ++ resolvePathAdd fs u)) := by
  refine ⟨?_, ?_, ?_, ?_, ?_, ?_, ?_, ?_⟩
  · intro hmeta; simp [resolvePathAdd, hmeta]
  · intro hmeta; simp [resolvePathAdd, hmeta]
  · intro hmeta
    refine ⟨by simp [resolvePathAdd, hmeta], ?_⟩
    rw [add_to_path_warnEvs, hmeta]
  · intro htemp hcon
    subst htemp
    rw [add_to_path_persisted, hcon]
    simp
  · intro htemp hcon
    subst htemp
    rw [add_to_path_persisted, hcon]
    simp
  · by_cases hcon : st.persisted.contains u = true
    · have e1 : (add_to_path fs st u false).1.persisted = st.persisted := by
        rw [add_to_path_persisted, hcon]; simp
      rw [add_to_path_persisted, e1, hcon]
      simp
    · have hconf : st.persisted.contains u = false := by
        cases hq : st.persisted.contains u with
        | true => exact absurd hq hcon
        | false => rfl
      have e1 : (add_to_path fs st u false).1.persisted
          = st.persisted ++ [u] := by
        rw [add_to_path_persisted, hconf]; simp
      have hcon2 : (add_to_path fs st u false).1.persisted.contains u = true := by
        rw [e1]; exact contains_append_self st.persisted u
      rw [add_to_path_persisted, hcon2]
      simp
  · intro hseg
    rw [add_to_path_pathVar, if_pos hseg]
  · intro hseg
    rw [add_to_path_pathVar, if_neg (by rw [hseg]; simp)]

/-- C4 witness: ./tool is a file with parent directory . ; adding it
non-temporarily persists the literal ./tool once (also on a second add)
and appends the resolved parent . to PATH. -/
theorem c4_add_to_path_contract_witness :
    (fsTool.metadata "./tool" = some true ∧
      resolvePathAdd fsTool "./tool" = (fsTool.parent "./tool").getD "./tool") ∧
    (st0.persisted.contains "./tool" = false ∧
      (add_to_path fsTool st0 "./tool" false).1.persisted
        = st0.persisted ++ ["./tool"]) ∧
    (add_to_path fsTool (add_to_path fsTool st0 "./tool" false).1
        "./tool" false).1.persisted
      = (add_to_path fsTool st0 "./tool" false).1.persisted :=
  ⟨⟨by decide,
    (c4_add_to_path_contract fsTool st0 "./tool" false).1 (by decide)⟩,
   ⟨by decide,
    (c4_add_to_path_contract fsTool st0 "./tool" false).2.2.2.2.1 rfl
      (by decide)⟩,
   (c4_add_to_path_contract fsTool st0 "./tool" false).2.2.2.2.2.1⟩

/-- C8: a cd whose directory change fails leaves the working directory
unchanged and prints the underlying filesystem error; executing that cd
line succeeds as a line (the error is reported, not returned), leaves
the state untouched, and a subsequent pwd prints the pre-cd working
directory. -/
theorem c8_cd_failure_preserves_cwd (fs : Fs) (st : ShellState)
    (seg p : String)
    (hpipe : splitChar '|' seg.data = [seg.data])
    (htrim : trimChars seg.data = seg.data)
    (hne : seg.data.isEmpty = false)
    (hargs : split_args seg = ["cd", p])
    (hfail : fs.chdir st.cwd p = none)
    (hcur : fs.currentDirOk = true) :
    (change_dir fs st p).1.cwd = st.cwd ∧
    (change_dir fs st p).2 = [Ev.print ("cd failed: " ++ fs.ioMsg p)] ∧
    execute_line fs st seg
      = ⟨Outcome.ok, st, [Ev.print ("cd failed: " ++ fs.ioMsg p)]⟩ ∧
    execute_line fs (execute_line fs st seg).state "pwd"
      = ⟨Outcome.ok, st, [Ev.print st.cwd]⟩ := by
  have hcd : change_dir fs st p
      = (st, [Ev.print ("cd failed: " ++ fs.ioMsg p)]) := by
    simp [change_dir, hfail]
  have hexec : execute_line fs st seg
      = ⟨Outcome.ok, st, [Ev.print ("cd failed: " ++ fs.ioMsg p)]⟩ := by
    unfold execute_line
    simp only [hne, Bool.false_eq_true, if_false, hpipe, List.map_cons,
      List.map_nil, htrim, stringMk_data]
    simp [execStages, hargs, hcd]
  have hpwd : execute_line fs st "pwd"
      = ⟨Outcome.ok, st, [Ev.print st.cwd]⟩ := by
    have h1 : execute_line fs st "pwd"
        = ⟨Outcome.ok, st, [] ++ print_working_dir fs st⟩ := rfl
    rw [h1]
    simp [print_working_dir, hcur]
  refine ⟨by rw [hcd], by rw [hcd], hexec, ?_⟩
  rw [hexec]
  exact hpwd

/-- C8 witness: cd nope with a failing chdir oracle. -/
theorem c8_cd_failure_witness :
    split_args "cd nope" = ["cd", "nope"] ∧
      execute_line fsAll st0 "cd nope"
        = ⟨Outcome.ok, st0, [Ev.print ("cd failed: " ++ fsAll.ioMsg "nope")]⟩ :=
  ⟨by decide,
   (c8_cd_failure_preserves_cwd fsAll st0 "cd nope" "nope" (by decide)
      (by decide) (by decide) (by decide) rfl rfl).2.2.1⟩

/-- C10: the export argument token =VALUE has the equals sign as its
first character; the dispatcher extracts the empty variable name and
calls the environment-set operation with an empty key, which panics
(std::env::set_var aborts on an empty key), so the whole process aborts:
no usage message is printed (the event list is empty) and nothing
continues after the panic. -/
theorem c10_export_empty_key_panics :
    execute_line fsAll st0 "export =VALUE" =
      ⟨Outcome.panicked "fatal: environment variable key is empty", st0, []⟩ ∧
      Outcome.panicked "fatal: environment variable key is empty"
        ≠ Outcome.err "fatal: environment variable key is empty" :=
  ⟨by decide, by decide⟩

end Falsh
